import Mathlib

/-!
Verification of the re-flora utility scripts.

Shallow embedding of the numeric scripts:
  - `misc/test_env/voxelize_tree.py` (SDF tapered-capsule voxelizer),
  - `misc/test_env/audio/resampling.py` (batch normalize/resample),
  - `misc/test_env/normal_check.py` (voxel-sphere culling),
  - `misc/test_env/test.py` (HDR linear scaling).

Python/numpy floats are modelled as real numbers; numpy exceptions
(e.g. the ValueError on an unknown interpolation mode) are modelled by
`Option`/`Except`.  Vectorized numpy operations over a grid are modelled
pointwise; the grid itself is a nested list built in the same iteration
order as `np.meshgrid(..., indexing='ij')`.
-/

/-- A 3D point/vector, modelling a numpy length-3 float array. -/
@[ext]
structure Vec3 where
  x : ℝ
  y : ℝ
  z : ℝ

instance : Add Vec3 := ⟨fun v w => ⟨v.x + w.x, v.y + w.y, v.z + w.z⟩⟩

instance : Sub Vec3 := ⟨fun v w => ⟨v.x - w.x, v.y - w.y, v.z - w.z⟩⟩

instance : SMul ℝ Vec3 := ⟨fun c v => ⟨c * v.x, c * v.y, c * v.z⟩⟩

/-- Dot product, as in `np.sum(u * v, axis=-1)` / `v.dot(w)`. -/
def dot (v w : Vec3) : ℝ := v.x * w.x + v.y * w.y + v.z * w.z

/-- Euclidean norm, as in `np.linalg.norm`. -/
noncomputable def norm3 (v : Vec3) : ℝ := Real.sqrt (dot v v)

/-- Euclidean distance between two points. -/
noncomputable def dist3 (p q : Vec3) : ℝ := norm3 (p - q)

/-- `np.clip(t, 0.0, 1.0)`. -/
noncomputable def clamp01 (t : ℝ) : ℝ := max 0 (min t 1)

/-- The interpolation-mode strings accepted by `sdf_tapered_segment`. -/
def modeLinear : String := "linear"

/-- The quadratic interpolation-mode string. -/
def modeQuadratic : String := "quadratic"

/-- The radius interpolation `R(t)` of `sdf_tapered_segment`; `none`
models the `ValueError` raised on an unknown mode. -/
def radiusInterp (mode : String) (r0 r1 t : ℝ) : Option ℝ :=
  if mode = "linear" then some (r0 + (r1 - r0) * t)
  else if mode = "quadratic" then some (r0 + (r1 - r0) * t ^ 2)
  else none

/-- `sdf_tapered_segment(p, a, b, r0, r1, mode)` from
`misc/test_env/voxelize_tree.py`, at a single sample point `p`
(the numpy version evaluates this formula pointwise over the array of
sample points).  `none` models the `ValueError` on an unknown mode. -/
noncomputable def sdf_tapered_segment (p a b : Vec3) (r0 r1 : ℝ) (mode : String) :
    Option ℝ :=
  let ab := b - a
  let ab2 := dot ab ab
  let ap := p - a
  let t_raw := dot ap ab / ab2
  let t := clamp01 t_raw
  let proj := a + t • ab
  let d_rad := norm3 (p - proj)
  (radiusInterp mode r0 r1 t).map fun R =>
    if t_raw ≤ 0 then norm3 (p - a) - r0
    else if 1 ≤ t_raw then norm3 (p - b) - r1
    else d_rad - R

/-- `np.deg2rad`. -/
noncomputable def deg2rad (d : ℝ) : ℝ := d * Real.pi / 180

/-- The branch direction vector of `generate_trunk_voxels`:
`[sin θ cos φ, cos θ, sin θ sin φ]`. -/
noncomputable def branchDir (θ φ : ℝ) : Vec3 :=
  ⟨Real.sin θ * Real.cos φ, Real.cos θ, Real.sin θ * Real.sin φ⟩

/-- The signed-distance field assembled by `generate_trunk_voxels`
(`misc/test_env/voxelize_tree.py`), evaluated at one sample point `p`.
`split_frac` is the script's `split_ratio` parameter.  With
`split_count = 0` it is the SDF of the single trunk segment; otherwise it
is the pointwise minimum of the trunk-to-split segment and the two
sibling branch segments (the `np.minimum` folds of the script). -/
noncomputable def trunkSDF (height r_bot r_tip : ℝ) (interp_mode : String)
    (split_count : ℕ) (split_frac split_separate split_bend split_angle : ℝ)
    (split_r_bot : Option ℝ) (p : Vec3) : Option ℝ :=
  let srb := split_r_bot.getD (r_bot * 0.5)
  if split_count = 0 then
    sdf_tapered_segment p ⟨0, 0, 0⟩ ⟨0, height, 0⟩ r_bot r_tip interp_mode
  else
    let hs := split_frac * height
    let bpt : Vec3 := ⟨0, hs, 0⟩
    let lb := height - hs
    let θ := deg2rad split_bend
    let φ0 := deg2rad split_angle
    let δ := deg2rad split_separate / 2
    do
      let dmain ← sdf_tapered_segment p ⟨0, 0, 0⟩ bpt r_bot srb interp_mode
      let dplus ← sdf_tapered_segment p bpt (bpt + lb • branchDir θ (φ0 + δ)) srb r_tip interp_mode
      let dminus ← sdf_tapered_segment p bpt (bpt + lb • branchDir θ (φ0 - δ)) srb r_tip interp_mode
      pure (min dmain (min dplus dminus))

/-- The center of grid cell `(i, j, k)`: the script samples at
`arange(n) + 0.5 + origin` in each axis. -/
def cellCenter (origin : ℝ × ℝ × ℝ) (i j k : ℕ) : Vec3 :=
  ⟨(i : ℝ) + 0.5 + origin.1, (j : ℝ) + 0.5 + origin.2.1, (k : ℝ) + 0.5 + origin.2.2⟩

/-- Map a fallible function over a list, failing if any element fails
(the numpy computation either raises for every sample point or for
none, since the mode check does not depend on the point). -/
def mapMO {α β : Type} (f : α → Option β) : List α → Option (List β)
  | [] => some []
  | a :: l => do
    let b ← f a
    let r ← mapMO f l
    pure (b :: r)

/-- `generate_trunk_voxels` from `misc/test_env/voxelize_tree.py`.
`split_frac` is the script's `split_ratio` parameter.  The returned grid
is a nested list indexed `[i][j][k]` (numpy `ij` indexing); each cell
holds `1` when the SDF at the cell center is `≤ 0` (the script sets
`vox[d <= 0] = 1` on a zero-initialized array) and `0` otherwise. -/
noncomputable def generate_trunk_voxels (height r_bot r_tip : ℝ) (interp_mode : String)
    (split_count : ℕ) (split_frac split_separate split_bend split_angle : ℝ)
    (split_r_bot : Option ℝ) (chunk_size : ℕ × ℕ × ℕ) (chunk_origin : ℝ × ℝ × ℝ) :
    Option (List (List (List ℕ))) :=
  mapMO (fun i =>
    mapMO (fun j =>
      mapMO (fun k =>
        (trunkSDF height r_bot r_tip interp_mode split_count split_frac
            split_separate split_bend split_angle split_r_bot
            (cellCenter chunk_origin i j k)).map
          (fun d => if d ≤ 0 then 1 else 0))
        (List.range chunk_size.2.2))
      (List.range chunk_size.2.1))
    (List.range chunk_size.1)

/-- Read entry `(i, j, k)` of a nested-list voxel grid. -/
def gridGet (g : List (List (List ℕ))) (i j k : ℕ) : ℕ :=
  ((g.getD i []).getD j []).getD k 0

/-- The argument record of `generate_trunk_voxels` (for the purity
statement). -/
structure TrunkArgs where
  height : ℝ
  r_bot : ℝ
  r_tip : ℝ
  interp_mode : String
  split_count : ℕ
  split_frac : ℝ
  split_separate : ℝ
  split_bend : ℝ
  split_angle : ℝ
  split_r_bot : Option ℝ
  chunk_size : ℕ × ℕ × ℕ
  chunk_origin : ℝ × ℝ × ℝ

/-- Run `generate_trunk_voxels` on an argument record. -/
noncomputable def runTrunk (A : TrunkArgs) : Option (List (List (List ℕ))) :=
  generate_trunk_voxels A.height A.r_bot A.r_tip A.interp_mode A.split_count
    A.split_frac A.split_separate A.split_bend A.split_angle A.split_r_bot
    A.chunk_size A.chunk_origin

/-- The point `a + t (b - a)` on the segment from `a` to `b`. -/
def segPoint (a b : Vec3) (t : ℝ) : Vec3 := a + t • (b - a)

/-- The raw projection parameter `t_raw` of `sdf_tapered_segment`. -/
noncomputable def tRaw (p a b : Vec3) : ℝ :=
  dot (p - a) (b - a) / dot (b - a) (b - a)

/-- The closed segment from `a` to `b` as a point set. -/
def segmentSet (a b : Vec3) : Set Vec3 :=
  {q | ∃ t, 0 ≤ t ∧ t ≤ 1 ∧ q = segPoint a b t}

/-- Euclidean distance from a point to a set of points (infimum of
distances; `0` on the empty set, by the convention of `sInf` on `ℝ`). -/
noncomputable def distToSet (p : Vec3) (S : Set Vec3) : ℝ :=
  sInf ((fun q => dist3 p q) '' S)

/-- Euclidean distance from a point to the segment `[a, b]`. -/
noncomputable def distToSegment (p a b : Vec3) : ℝ := distToSet p (segmentSet a b)

/-- The surface of the uniform capsule of radius `r` around `[a, b]`. -/
def capsuleSurface (a b : Vec3) (r : ℝ) : Set Vec3 :=
  {q | distToSegment q a b = r}

/-- Modelled from the spec: `f` is "the signed Euclidean distance from p
to the surface" `T`, "negative inside, positive outside" — at every
point, a positive value is the distance to `T`, a negative value is the
negated distance to `T`, and a zero value means the point lies on `T`. -/
def IsSignedDistTo (f : Vec3 → ℝ) (T : Set Vec3) : Prop :=
  ∀ p, (0 < f p → distToSet p T = f p) ∧
    (f p < 0 → distToSet p T = -(f p)) ∧
    (f p = 0 → p ∈ T)

/-- A nonzero vector orthogonal to `v` (for `v ≠ 0`). -/
noncomputable def perpVec (v : Vec3) : Vec3 :=
  if v.x = 0 ∧ v.y = 0 then ⟨1, 0, 0⟩ else ⟨-v.y, v.x, 0⟩

/-- `np.mean` of a 1-D array as a list. -/
noncomputable def npMean (l : List ℝ) : ℝ := l.sum / l.length

/-- The DC-centered data `data - np.mean(data)` of `normalize_audio`. -/
noncomputable def centeredData (l : List ℝ) : List ℝ :=
  l.map (fun v => v - npMean l)

/-- `np.max(np.abs(l))` (with value `0` on the empty list, where numpy
would raise). -/
def maxAbsList (l : List ℝ) : ℝ := (l.map (fun v => |v|)).foldr max 0

/-- The script's `TARGET_DBFS` constant. -/
def TARGET_DBFS : ℝ := -1

/-- `normalize_audio` from `misc/test_env/audio/resampling.py`:
remove the DC offset, then scale the peak to `10 ** (target_db / 20)`;
if the centered data has zero peak, return it unchanged. -/
noncomputable def normalize_audio (data : List ℝ) (target_db : ℝ) : List ℝ :=
  let c := data.map (fun v => v - npMean data)
  let peak_linear := (10 : ℝ) ^ (target_db / 20)
  let max_abs := maxAbsList c
  if max_abs = 0 then c else c.map (fun v => v * (peak_linear / max_abs))

/-- `resample_audio` from `misc/test_env/audio/resampling.py`; the
`soxr.resample` library call is abstracted as the `resampler`
parameter. -/
def resample_audio (resampler : List ℝ → ℕ → ℕ → List ℝ)
    (data : List ℝ) (original_sr target_sr : ℕ) : List ℝ :=
  if original_sr = target_sr then data else resampler data original_sr target_sr

/-- The batch loop of `main` in `misc/test_env/audio/resampling.py`:
each file is processed inside `try/except`; a success contributes an
output, a failure contributes a printed error, and the loop always
moves on to the next file. Returns (outputs written, errors printed),
each in batch order. -/
def mainLoop {α ε β : Type} (process : α → Except ε β) : List α → List β × List ε
  | [] => ([], [])
  | f :: rest =>
    match process f with
    | Except.ok b => ((mainLoop process rest).1.cons b, (mainLoop process rest).2)
    | Except.error e => ((mainLoop process rest).1, (mainLoop process rest).2.cons e)

/-- The coordinates `-bound .. bound` iterated by each loop of
`visualize_sphere_culling`. -/
def latticeCoords (bound : ℕ) : List ℤ :=
  (List.range (2 * bound + 1)).map (fun n : ℕ => (n : ℤ) - bound)

/-- The lattice points of the cube `[-bound, bound]^3`, in the loop
order of `visualize_sphere_culling`. -/
def latticeCube (bound : ℕ) : List (ℤ × ℤ × ℤ) :=
  (latticeCoords bound).flatMap (fun i =>
    (latticeCoords bound).flatMap (fun j =>
      (latticeCoords bound).map (fun k => (i, j, k))))

/-- The sphere test `i*i + j*j + k*k <= radius*radius` of
`visualize_sphere_culling` (integer sum compared against a real). -/
def insideSphere (v : ℤ × ℤ × ℤ) (radius : ℝ) : Prop :=
  ((v.1 * v.1 + v.2.1 * v.2.1 + v.2.2 * v.2.2 : ℤ) : ℝ) ≤ radius * radius

noncomputable instance (v : ℤ × ℤ × ℤ) (radius : ℝ) :
    Decidable (insideSphere v radius) :=
  Real.decidableLE _ _

/-- The classification computed by `visualize_sphere_culling` in
`misc/test_env/normal_check.py`: `(kept_voxels, culled_voxels)`. -/
noncomputable def visualize_sphere_culling (bound : ℕ) (radius : ℝ) :
    List (ℤ × ℤ × ℤ) × List (ℤ × ℤ × ℤ) :=
  ((latticeCube bound).filter (fun v => decide (insideSphere v radius)),
   (latticeCube bound).filter (fun v => ! decide (insideSphere v radius)))

/-- `np.min` of a nonempty array (0 on the empty list, where numpy
would raise). -/
noncomputable def minList (l : List ℝ) : ℝ :=
  match l with
  | [] => 0
  | a :: t => t.foldl min a

/-- `np.max` of a nonempty array (0 on the empty list, where numpy
would raise). -/
noncomputable def maxList (l : List ℝ) : ℝ :=
  match l with
  | [] => 0
  | a :: t => t.foldl max a

/-- `np.isclose(a, b)` with the default tolerances
`rtol = 1e-05`, `atol = 1e-08`. -/
def npIsClose (a b : ℝ) : Prop :=
  |a - b| ≤ 1 / 100000000 + (1 / 100000) * |b|

noncomputable instance (a b : ℝ) : Decidable (npIsClose a b) :=
  Real.decidableLE _ _

/-- `np.round`: round half to even. -/
noncomputable def roundHalfEven (v : ℝ) : ℤ :=
  let f := ⌊v⌋
  let r := v - f
  if r < 1 / 2 then f
  else if 1 / 2 < r then f + 1
  else if Even f then f else f + 1

/-- `linear_scale_to_u8` from `misc/test_env/test.py`, on the flattened
pixel list: map the full dynamic range linearly to 0-255; on a
(nearly) constant image return an all-zero array of the same shape. -/
noncomputable def linear_scale_to_u8 (hdr : List ℝ) : List ℕ :=
  let min_val := minList hdr
  let max_val := maxList hdr
  if npIsClose max_val min_val then hdr.map (fun _ => 0)
  else hdr.map (fun v =>
    (max 0 (min 255 (roundHalfEven ((v - min_val) / (max_val - min_val) * 255)))).toNat)

/-! ## Vec3 algebra -/

@[simp]
theorem Vec3.add_x (v w : Vec3) : (v + w).x = v.x + w.x := rfl

@[simp]
theorem Vec3.add_y (v w : Vec3) : (v + w).y = v.y + w.y := rfl

@[simp]
theorem Vec3.add_z (v w : Vec3) : (v + w).z = v.z + w.z := rfl

@[simp]
theorem Vec3.sub_x (v w : Vec3) : (v - w).x = v.x - w.x := rfl

@[simp]
theorem Vec3.sub_y (v w : Vec3) : (v - w).y = v.y - w.y := rfl

@[simp]
theorem Vec3.sub_z (v w : Vec3) : (v - w).z = v.z - w.z := rfl

@[simp]
theorem Vec3.smul_x (c : ℝ) (v : Vec3) : (c • v).x = c * v.x := rfl

@[simp]
theorem Vec3.smul_y (c : ℝ) (v : Vec3) : (c • v).y = c * v.y := rfl

@[simp]
theorem Vec3.smul_z (c : ℝ) (v : Vec3) : (c • v).z = c * v.z := rfl

theorem dot_self_nonneg (v : Vec3) : 0 ≤ dot v v := by
  unfold dot; nlinarith [sq_nonneg v.x, sq_nonneg v.y, sq_nonneg v.z]

theorem norm3_nonneg (v : Vec3) : 0 ≤ norm3 v := Real.sqrt_nonneg _

theorem dist3_nonneg (p q : Vec3) : 0 ≤ dist3 p q := norm3_nonneg _

theorem sq_norm3 (v : Vec3) : norm3 v ^ 2 = dot v v :=
  Real.sq_sqrt (dot_self_nonneg v)

theorem norm3_eq_of_sq (v : Vec3) (c : ℝ) (hc : 0 ≤ c) (h : dot v v = c ^ 2) :
    norm3 v = c := by
  rw [norm3, h, Real.sqrt_sq hc]

theorem dot_self_eq_zero_iff (v : Vec3) : dot v v = 0 ↔ v = ⟨0, 0, 0⟩ := by
  constructor
  · intro h
    unfold dot at h
    have hx : v.x = 0 := by
      have := mul_self_nonneg v.x
      have := mul_self_nonneg v.y
      have := mul_self_nonneg v.z
      exact mul_self_eq_zero.mp (le_antisymm (by linarith) (mul_self_nonneg v.x))
    have hy : v.y = 0 := by
      have := mul_self_nonneg v.x
      have := mul_self_nonneg v.z
      exact mul_self_eq_zero.mp (le_antisymm (by linarith) (mul_self_nonneg v.y))
    have hz : v.z = 0 := by
      have := mul_self_nonneg v.x
      have := mul_self_nonneg v.y
      exact mul_self_eq_zero.mp (le_antisymm (by linarith) (mul_self_nonneg v.z))
    ext <;> simp [hx, hy, hz]
  · rintro rfl; simp [dot]

theorem dot_self_pos (v : Vec3) (hv : v ≠ ⟨0, 0, 0⟩) : 0 < dot v v := by
  rcases lt_or_eq_of_le (dot_self_nonneg v) with h | h
  · exact h
  · exact absurd ((dot_self_eq_zero_iff v).mp h.symm) hv

theorem norm3_pos (v : Vec3) (hv : v ≠ ⟨0, 0, 0⟩) : 0 < norm3 v :=
  Real.sqrt_pos.mpr (dot_self_pos v hv)

theorem norm3_eq_zero_iff (v : Vec3) : norm3 v = 0 ↔ v = ⟨0, 0, 0⟩ := by
  rw [norm3, Real.sqrt_eq_zero (dot_self_nonneg v), dot_self_eq_zero_iff]

theorem dist3_eq_zero (p q : Vec3) (h : dist3 p q = 0) : p = q := by
  have h2 := (norm3_eq_zero_iff (p - q)).mp h
  have hx : p.x - q.x = 0 := congrArg Vec3.x h2
  have hy : p.y - q.y = 0 := congrArg Vec3.y h2
  have hz : p.z - q.z = 0 := congrArg Vec3.z h2
  ext <;> linarith

theorem dist3_comm (p q : Vec3) : dist3 p q = dist3 q p := by
  have h : dot (p - q) (p - q) = dot (q - p) (q - p) := by
    unfold dot; simp; ring
  rw [dist3, dist3, norm3, norm3, h]

theorem norm3_smul (c : ℝ) (v : Vec3) : norm3 (c • v) = |c| * norm3 v := by
  unfold norm3
  have : dot (c • v) (c • v) = c ^ 2 * dot v v := by unfold dot; simp; ring
  rw [this, Real.sqrt_mul (sq_nonneg c), Real.sqrt_sq_eq_abs]

theorem dot_cauchy_schwarz (u v : Vec3) : dot u v ≤ norm3 u * norm3 v := by
  have h2 : dot u v ^ 2 ≤ dot u u * dot v v := by
    unfold dot
    nlinarith [sq_nonneg (u.x * v.y - u.y * v.x), sq_nonneg (u.x * v.z - u.z * v.x),
      sq_nonneg (u.y * v.z - u.z * v.y)]
  calc dot u v ≤ |dot u v| := le_abs_self _
    _ = Real.sqrt (dot u v ^ 2) := (Real.sqrt_sq_eq_abs _).symm
    _ ≤ Real.sqrt (dot u u * dot v v) := Real.sqrt_le_sqrt h2
    _ = norm3 u * norm3 v := by
        rw [norm3, norm3, ← Real.sqrt_mul (dot_self_nonneg u)]

theorem norm3_add_le (u v : Vec3) : norm3 (u + v) ≤ norm3 u + norm3 v := by
  have hd : dot (u + v) (u + v) = dot u u + 2 * dot u v + dot v v := by
    unfold dot; simp; ring
  have hsq : dot (u + v) (u + v) ≤ (norm3 u + norm3 v) ^ 2 := by
    have hcs := dot_cauchy_schwarz u v
    have hu := sq_norm3 u
    have hv := sq_norm3 v
    nlinarith
  calc norm3 (u + v) = Real.sqrt (dot (u + v) (u + v)) := rfl
    _ ≤ Real.sqrt ((norm3 u + norm3 v) ^ 2) := Real.sqrt_le_sqrt hsq
    _ = norm3 u + norm3 v := by
        rw [Real.sqrt_sq (add_nonneg (norm3_nonneg u) (norm3_nonneg v))]

theorem dist3_triangle (p q c : Vec3) : dist3 p c ≤ dist3 p q + dist3 q c := by
  have h : p - c = (p - q) + (q - c) := by ext <;> simp
  calc dist3 p c = norm3 ((p - q) + (q - c)) := by rw [dist3, h]
    _ ≤ norm3 (p - q) + norm3 (q - c) := norm3_add_le _ _
    _ = dist3 p q + dist3 q c := rfl

/-! ## Distance to a set, distance to a segment -/

theorem distToSet_bddBelow (p : Vec3) (S : Set Vec3) :
    BddBelow ((fun q => dist3 p q) '' S) := by
  refine ⟨0, ?_⟩
  rintro _ ⟨q, _, rfl⟩
  exact dist3_nonneg p q

theorem distToSet_le (p : Vec3) {S : Set Vec3} {q : Vec3} (hq : q ∈ S) :
    distToSet p S ≤ dist3 p q :=
  csInf_le (distToSet_bddBelow p S) ⟨q, hq, rfl⟩

theorem le_distToSet (p : Vec3) {S : Set Vec3} (hS : S.Nonempty) {c : ℝ}
    (h : ∀ q ∈ S, c ≤ dist3 p q) : c ≤ distToSet p S := by
  refine le_csInf (hS.image _) ?_
  rintro _ ⟨q, hq, rfl⟩
  exact h q hq

theorem distToSet_nonneg (p : Vec3) (S : Set Vec3) (hS : S.Nonempty) :
    0 ≤ distToSet p S :=
  le_distToSet p hS fun q _ => dist3_nonneg p q

theorem distToSet_lipschitz (p q : Vec3) {S : Set Vec3} (hS : S.Nonempty) :
    distToSet p S ≤ dist3 p q + distToSet q S := by
  have h : distToSet p S - dist3 p q ≤ distToSet q S := by
    refine le_distToSet q hS fun w hw => ?_
    have h1 : distToSet p S ≤ dist3 p w := distToSet_le p hw
    have h2 : dist3 p w ≤ dist3 p q + dist3 q w := dist3_triangle p q w
    linarith
  linarith

theorem segPoint_zero (a b : Vec3) : segPoint a b 0 = a := by
  unfold segPoint; ext <;> simp

theorem segPoint_one (a b : Vec3) : segPoint a b 1 = b := by
  unfold segPoint; ext <;> simp

theorem segPoint_mem (a b : Vec3) {t : ℝ} (h0 : 0 ≤ t) (h1 : t ≤ 1) :
    segPoint a b t ∈ segmentSet a b :=
  ⟨t, h0, h1, rfl⟩

theorem segmentSet_nonempty (a b : Vec3) : (segmentSet a b).Nonempty :=
  ⟨segPoint a b 0, segPoint_mem a b (le_refl 0) zero_le_one⟩

/-! ## The clamped projection is the nearest point of the segment -/

theorem clamp01_nonneg (t : ℝ) : 0 ≤ clamp01 t := le_max_left 0 _

theorem clamp01_le_one (t : ℝ) : clamp01 t ≤ 1 :=
  max_le zero_le_one (min_le_right t 1)

theorem clamp01_of_nonpos {t : ℝ} (h : t ≤ 0) : clamp01 t = 0 := by
  unfold clamp01
  rw [min_eq_left (h.trans zero_le_one), max_eq_left h]

theorem clamp01_of_one_le {t : ℝ} (h : 1 ≤ t) : clamp01 t = 1 := by
  unfold clamp01
  rw [min_eq_right h, max_eq_right zero_le_one]

theorem clamp01_of_mem {t : ℝ} (h0 : 0 ≤ t) (h1 : t ≤ 1) : clamp01 t = t := by
  unfold clamp01
  rw [min_eq_left h1, max_eq_right h0]

theorem sub_ne_zero_vec (a b : Vec3) (hab : a ≠ b) : b - a ≠ ⟨0, 0, 0⟩ := by
  intro h
  apply hab
  have hx : b.x - a.x = 0 := congrArg Vec3.x h
  have hy : b.y - a.y = 0 := congrArg Vec3.y h
  have hz : b.z - a.z = 0 := congrArg Vec3.z h
  ext <;> linarith

theorem dot_smul_right (v : Vec3) (c : ℝ) (w : Vec3) :
    dot v (c • w) = c * dot v w := by
  unfold dot; simp; ring

theorem segPoint_sub (a b : Vec3) (u t : ℝ) :
    segPoint a b u - segPoint a b t = (u - t) • (b - a) := by
  unfold segPoint; ext <;> simp <;> ring

theorem dist_sq_segPoint (p a b : Vec3) (u : ℝ) :
    dot (p - segPoint a b u) (p - segPoint a b u) =
      dot (p - a) (p - a) - 2 * u * dot (p - a) (b - a) +
        u ^ 2 * dot (b - a) (b - a) := by
  unfold segPoint dot; simp; ring

theorem dot_sub_segPoint_ab (p a b : Vec3) (t : ℝ) :
    dot (p - segPoint a b t) (b - a) =
      dot (p - a) (b - a) - t * dot (b - a) (b - a) := by
  unfold segPoint dot; simp; ring

theorem tRaw_spec (p a b : Vec3) (hab : a ≠ b) :
    dot (p - a) (b - a) = tRaw p a b * dot (b - a) (b - a) := by
  have h : dot (b - a) (b - a) ≠ 0 :=
    (dot_self_pos _ (sub_ne_zero_vec a b hab)).ne'
  unfold tRaw
  rw [div_mul_cancel₀ _ h]

theorem dist3_segPoint_min (p a b : Vec3) (hab : a ≠ b) {u : ℝ}
    (hu0 : 0 ≤ u) (hu1 : u ≤ 1) :
    dist3 p (segPoint a b (clamp01 (tRaw p a b))) ≤ dist3 p (segPoint a b u) := by
  unfold dist3 norm3
  apply Real.sqrt_le_sqrt
  rw [dist_sq_segPoint, dist_sq_segPoint]
  set τ := tRaw p a b with hτ
  have hab2 : 0 < dot (b - a) (b - a) := dot_self_pos _ (sub_ne_zero_vec a b hab)
  rw [tRaw_spec p a b hab, ← hτ]
  rcases le_or_lt τ 0 with h0 | h0
  · rw [clamp01_of_nonpos h0]
    nlinarith [mul_nonneg (mul_nonneg hab2.le hu0)
      (by linarith : (0 : ℝ) ≤ u - 2 * τ)]
  · rcases le_or_lt 1 τ with h1 | h1
    · rw [clamp01_of_one_le h1]
      nlinarith [mul_nonneg (mul_nonneg hab2.le (by linarith : (0 : ℝ) ≤ 1 - u))
        (by linarith : (0 : ℝ) ≤ 2 * τ - u - 1)]
    · rw [clamp01_of_mem h0.le h1.le]
      nlinarith [mul_nonneg hab2.le (sq_nonneg (u - τ))]

theorem distToSegment_eq_proj (p a b : Vec3) (hab : a ≠ b) :
    distToSegment p a b = dist3 p (segPoint a b (clamp01 (tRaw p a b))) := by
  apply le_antisymm
  · exact distToSet_le p (segPoint_mem a b (clamp01_nonneg _) (clamp01_le_one _))
  · refine le_distToSet p (segmentSet_nonempty a b) ?_
    rintro q ⟨t, ht0, ht1, rfl⟩
    exact dist3_segPoint_min p a b hab ht0 ht1

theorem segVariational (p a b : Vec3) (hab : a ≠ b) {u : ℝ}
    (hu0 : 0 ≤ u) (hu1 : u ≤ 1) :
    dot (p - segPoint a b (clamp01 (tRaw p a b)))
      (segPoint a b u - segPoint a b (clamp01 (tRaw p a b))) ≤ 0 := by
  rw [segPoint_sub, dot_smul_right, dot_sub_segPoint_ab]
  set τ := tRaw p a b with hτ
  have hab2 : 0 < dot (b - a) (b - a) := dot_self_pos _ (sub_ne_zero_vec a b hab)
  rw [tRaw_spec p a b hab, ← hτ]
  rcases le_or_lt τ 0 with h0 | h0
  · rw [clamp01_of_nonpos h0]
    have hτab : τ * dot (b - a) (b - a) ≤ 0 :=
      mul_nonpos_of_nonpos_of_nonneg h0 hab2.le
    nlinarith [mul_nonneg hu0 (neg_nonneg.mpr hτab)]
  · rcases le_or_lt 1 τ with h1 | h1
    · rw [clamp01_of_one_le h1]
      have h2 : 0 ≤ (τ - 1) * dot (b - a) (b - a) :=
        mul_nonneg (by linarith) hab2.le
      nlinarith [mul_nonneg (by linarith : (0 : ℝ) ≤ 1 - u) h2]
    · rw [clamp01_of_mem h0.le h1.le]
      have : τ * dot (b - a) (b - a) - τ * dot (b - a) (b - a) = 0 := by ring
      rw [this, mul_zero]

/-! ## The equal-radii SDF formula and the capsule surface -/

theorem radiusInterp_linear (r0 r1 t : ℝ) :
    radiusInterp modeLinear r0 r1 t = some (r0 + (r1 - r0) * t) := rfl

theorem sdf_tapered_segment_def (p a b : Vec3) (r0 r1 : ℝ) (mode : String) :
    sdf_tapered_segment p a b r0 r1 mode =
      (radiusInterp mode r0 r1 (clamp01 (tRaw p a b))).map fun R =>
        if tRaw p a b ≤ 0 then norm3 (p - a) - r0
        else if 1 ≤ tRaw p a b then norm3 (p - b) - r1
        else norm3 (p - segPoint a b (clamp01 (tRaw p a b))) - R := rfl

theorem sdf_tapered_segment_equal_radii (p a b : Vec3) (r : ℝ) (hab : a ≠ b) :
    sdf_tapered_segment p a b r r modeLinear =
      some (distToSegment p a b - r) := by
  rw [sdf_tapered_segment_def, radiusInterp_linear, Option.map_some',
    distToSegment_eq_proj p a b hab]
  congr 1
  split_ifs with h1 h2
  · rw [clamp01_of_nonpos h1, segPoint_zero]
    simp [dist3]
  · rw [clamp01_of_one_le h2, segPoint_one]
    simp [dist3]
  · simp [dist3]

theorem dot_add_self (u v : Vec3) :
    dot (u + v) (u + v) = dot u u + 2 * dot u v + dot v v := by
  unfold dot; simp; ring

theorem dot_smul_left (c : ℝ) (v w : Vec3) : dot (c • v) w = c * dot v w := by
  unfold dot; simp; ring

theorem dot_sub_swap (v w1 w2 : Vec3) :
    dot v (w1 - w2) = -dot v (w2 - w1) := by
  unfold dot; simp; ring

theorem ray_nearest (p a b : Vec3) (hab : a ≠ b) {lam : ℝ} (hlam : 0 ≤ lam) :
    distToSegment (segPoint a b (clamp01 (tRaw p a b)) +
        lam • (p - segPoint a b (clamp01 (tRaw p a b)))) a b =
      norm3 (lam • (p - segPoint a b (clamp01 (tRaw p a b)))) := by
  set s := segPoint a b (clamp01 (tRaw p a b)) with hs
  set w := s + lam • (p - s) with hw
  have hws : w - s = lam • (p - s) := by rw [hw]; ext <;> simp
  apply le_antisymm
  · have hmem : s ∈ segmentSet a b := by
      rw [hs]; exact segPoint_mem a b (clamp01_nonneg _) (clamp01_le_one _)
    calc distToSegment w a b ≤ dist3 w s := distToSet_le w hmem
      _ = norm3 (lam • (p - s)) := by rw [dist3, hws]
  · refine le_distToSet w (segmentSet_nonempty a b) ?_
    rintro c ⟨u, hu0, hu1, rfl⟩
    have hdecomp : w - segPoint a b u = (w - s) + (s - segPoint a b u) := by
      ext <;> simp
    have hvar : dot (p - s) (segPoint a b u - s) ≤ 0 := by
      rw [hs]; exact segVariational p a b hab hu0 hu1
    show norm3 (lam • (p - s)) ≤ dist3 w (segPoint a b u)
    rw [dist3, hdecomp]
    unfold norm3
    apply Real.sqrt_le_sqrt
    rw [dot_add_self, hws]
    have hmid : dot (lam • (p - s)) (s - segPoint a b u) =
        lam * -dot (p - s) (segPoint a b u - s) := by
      rw [dot_smul_left, dot_sub_swap]
    linarith [dot_self_nonneg (s - segPoint a b u),
      mul_nonneg hlam (neg_nonneg.mpr hvar), hmid]

theorem dot_perpVec (v : Vec3) : dot (perpVec v) v = 0 := by
  unfold perpVec dot
  split_ifs with h
  · simp [h.1]
  · simp; ring

theorem perpVec_ne_zero (v : Vec3) (_hv : v ≠ ⟨0, 0, 0⟩) :
    perpVec v ≠ ⟨0, 0, 0⟩ := by
  unfold perpVec
  split_ifs with h
  · intro heq
    have : (1 : ℝ) = 0 := congrArg Vec3.x heq
    norm_num at this
  · intro heq
    have hx : -v.y = 0 := congrArg Vec3.x heq
    have hy : v.x = 0 := congrArg Vec3.y heq
    exact h ⟨hy, by linarith⟩

theorem capsule_witness (p a b : Vec3) (r : ℝ) (hab : a ≠ b) (hr : 0 < r) :
    ∃ q ∈ capsuleSurface a b r, dist3 p q = |distToSegment p a b - r| := by
  set s := segPoint a b (clamp01 (tRaw p a b)) with hs
  have hD : distToSegment p a b = dist3 p s := by
    rw [hs]; exact distToSegment_eq_proj p a b hab
  rcases eq_or_lt_of_le (dist3_nonneg p s) with hD0 | hD0
  · -- the sample point lies on the segment
    have hps : p = s := dist3_eq_zero p s hD0.symm
    set m := perpVec (b - a) with hm
    have hm0 : m ≠ ⟨0, 0, 0⟩ := by
      rw [hm]; exact perpVec_ne_zero _ (sub_ne_zero_vec a b hab)
    have hmn : 0 < norm3 m := norm3_pos m hm0
    have hqp : (p + (r / norm3 m) • m) - p = (r / norm3 m) • m := by
      ext <;> simp
    have hnq : norm3 ((p + (r / norm3 m) • m) - p) = r := by
      rw [hqp, norm3_smul, abs_of_pos (div_pos hr hmn), div_mul_cancel₀ _ hmn.ne']
    refine ⟨p + (r / norm3 m) • m, ?_, ?_⟩
    · show distToSegment (p + (r / norm3 m) • m) a b = r
      apply le_antisymm
      · have hmem : s ∈ segmentSet a b := by
          rw [hs]; exact segPoint_mem a b (clamp01_nonneg _) (clamp01_le_one _)
        calc distToSegment (p + (r / norm3 m) • m) a b
            ≤ dist3 (p + (r / norm3 m) • m) s := distToSet_le _ hmem
          _ = r := by rw [← hps, dist3, hnq]
      · refine le_distToSet _ (segmentSet_nonempty a b) ?_
        rintro c ⟨u, hu0, hu1, rfl⟩
        have hdec : (p + (r / norm3 m) • m) - segPoint a b u =
            (r / norm3 m) • m + (p - segPoint a b u) := by
          ext <;> simp <;> ring
        have hseg : p - segPoint a b u =
            (clamp01 (tRaw p a b) - u) • (b - a) := by
          conv_lhs => rw [hps, hs]
          exact segPoint_sub a b _ u
        have hperp : dot ((r / norm3 m) • m) (p - segPoint a b u) = 0 := by
          rw [hseg, dot_smul_left]
          have : dot m ((clamp01 (tRaw p a b) - u) • (b - a)) =
              (clamp01 (tRaw p a b) - u) * dot m (b - a) := by
            unfold dot; simp; ring
          rw [this]
          have hmz : dot m (b - a) = 0 := by
            have h1 := dot_perpVec (b - a)
            rw [← hm] at h1
            have : dot m (b - a) = dot (perpVec (b - a)) (b - a) := by rw [hm]
            rw [this, dot_perpVec]
          rw [hmz]
          ring
        show r ≤ dist3 (p + (r / norm3 m) • m) (segPoint a b u)
        rw [dist3, hdec]
        unfold norm3
        have hsq : r ^ 2 ≤ dot ((r / norm3 m) • m + (p - segPoint a b u))
            ((r / norm3 m) • m + (p - segPoint a b u)) := by
          rw [dot_add_self, hperp]
          have h1 : dot ((r / norm3 m) • m) ((r / norm3 m) • m) = r ^ 2 := by
            have := sq_norm3 ((r / norm3 m) • m)
            rw [norm3_smul, abs_of_pos (div_pos hr hmn),
              div_mul_cancel₀ _ hmn.ne'] at this
            linarith
          rw [h1]
          linarith [dot_self_nonneg (p - segPoint a b u)]
        calc r = Real.sqrt (r ^ 2) := (Real.sqrt_sq hr.le).symm
          _ ≤ _ := Real.sqrt_le_sqrt hsq
    · rw [hD, ← hD0, dist3_comm, dist3, hqp, norm3_smul,
        abs_of_pos (div_pos hr hmn), div_mul_cancel₀ _ hmn.ne']
      rw [abs_of_neg (by linarith : (0 : ℝ) - r < 0)]
      ring
  · -- the sample point is off the segment: walk along the ray through s
    set lam := r / dist3 p s with hlam
    have hlam0 : 0 ≤ lam := le_of_lt (div_pos hr hD0)
    refine ⟨s + lam • (p - s), ?_, ?_⟩
    · show distToSegment (s + lam • (p - s)) a b = r
      have h1 := ray_nearest p a b hab hlam0
      rw [← hs] at h1
      rw [h1, norm3_smul, abs_of_nonneg hlam0, hlam]
      have : dist3 p s = norm3 (p - s) := rfl
      rw [← this, div_mul_cancel₀ _ hD0.ne']
    · have hpq : p - (s + lam • (p - s)) = (1 - lam) • (p - s) := by
        ext <;> simp <;> ring
      rw [dist3, hpq, norm3_smul, hD]
      have hds : dist3 p s = norm3 (p - s) := rfl
      rw [← hds, hlam]
      rw [show (1 : ℝ) - r / dist3 p s = (dist3 p s - r) / dist3 p s from by
        field_simp]
      rw [abs_div, abs_of_pos hD0, div_mul_cancel₀ _ hD0.ne']

theorem capsuleSurface_signedDist (p a b : Vec3) (r : ℝ) (hab : a ≠ b)
    (hr : 0 < r) :
    (0 < distToSegment p a b - r →
        distToSet p (capsuleSurface a b r) = distToSegment p a b - r) ∧
    (distToSegment p a b - r < 0 →
        distToSet p (capsuleSurface a b r) = -(distToSegment p a b - r)) ∧
    (distToSegment p a b - r = 0 → p ∈ capsuleSurface a b r) := by
  obtain ⟨q, hqT, hqd⟩ := capsule_witness p a b r hab hr
  have hTne : (capsuleSurface a b r).Nonempty := ⟨q, hqT⟩
  have hlow : ∀ w ∈ capsuleSurface a b r,
      |distToSegment p a b - r| ≤ dist3 p w := by
    intro w hw
    have hwr : distToSegment w a b = r := hw
    have h1 : distToSegment p a b ≤ dist3 p w + distToSegment w a b :=
      distToSet_lipschitz p w (segmentSet_nonempty a b)
    have h2 : distToSegment w a b ≤ dist3 w p + distToSegment p a b :=
      distToSet_lipschitz w p (segmentSet_nonempty a b)
    rw [dist3_comm w p] at h2
    rw [abs_le]
    constructor <;> [linarith; linarith]
  have heq : distToSet p (capsuleSurface a b r) = |distToSegment p a b - r| := by
    apply le_antisymm
    · rw [← hqd]; exact distToSet_le p hqT
    · exact le_distToSet p hTne hlow
  refine ⟨fun h => ?_, fun h => ?_, fun h => ?_⟩
  · rw [heq, abs_of_pos h]
  · rw [heq, abs_of_neg h]
  · show distToSegment p a b = r
    linarith

/-! ## Concrete SDF evaluations for the taper counterexample -/

theorem sdf_eval_taper_quarter :
    sdf_tapered_segment ⟨20, 1/4, 0⟩ ⟨0, 0, 0⟩ ⟨0, 1, 0⟩ 1 11 modeLinear =
      some (33/2) := by
  rw [sdf_tapered_segment_def]
  have ht : tRaw ⟨20, 1/4, 0⟩ ⟨0, 0, 0⟩ ⟨0, 1, 0⟩ = 1/4 := by
    unfold tRaw dot; simp
  rw [ht]
  have hc : clamp01 (1/4 : ℝ) = 1/4 := clamp01_of_mem (by norm_num) (by norm_num)
  rw [hc, radiusInterp_linear, Option.map_some']
  rw [if_neg (by norm_num : ¬((1/4 : ℝ) ≤ 0)),
    if_neg (by norm_num : ¬((1 : ℝ) ≤ 1/4))]
  have hn : norm3 (⟨20, 1/4, 0⟩ - segPoint ⟨0, 0, 0⟩ ⟨0, 1, 0⟩ (1/4)) = 20 := by
    apply norm3_eq_of_sq _ _ (by norm_num)
    unfold segPoint dot; simp; norm_num
  rw [hn]
  norm_num

theorem sdf_eval_taper_threequarter :
    sdf_tapered_segment ⟨20, 3/4, 0⟩ ⟨0, 0, 0⟩ ⟨0, 1, 0⟩ 1 11 modeLinear =
      some (23/2) := by
  rw [sdf_tapered_segment_def]
  have ht : tRaw ⟨20, 3/4, 0⟩ ⟨0, 0, 0⟩ ⟨0, 1, 0⟩ = 3/4 := by
    unfold tRaw dot; simp
  rw [ht]
  have hc : clamp01 (3/4 : ℝ) = 3/4 := clamp01_of_mem (by norm_num) (by norm_num)
  rw [hc, radiusInterp_linear, Option.map_some']
  rw [if_neg (by norm_num : ¬((3/4 : ℝ) ≤ 0)),
    if_neg (by norm_num : ¬((1 : ℝ) ≤ 3/4))]
  have hn : norm3 (⟨20, 3/4, 0⟩ - segPoint ⟨0, 0, 0⟩ ⟨0, 1, 0⟩ (3/4)) = 20 := by
    apply norm3_eq_of_sq _ _ (by norm_num)
    unfold segPoint dot; simp; norm_num
  rw [hn]
  norm_num

/-- C2 counterexample: with `r0 = 1`, `r1 = 11` the values returned by
`sdf_tapered_segment` are not the signed Euclidean distance to any
surface at all: between the two sample points `(20, 1/4, 0)` and
`(20, 3/4, 0)` (at distance `1/2` from each other) the returned values
jump from `33/2` to `23/2`, which violates the 1-Lipschitz property
every distance-to-a-fixed-set function has. -/
theorem sdf_tapered_segment_not_signed_distance :
    ¬ ∃ T : Set Vec3, IsSignedDistTo
      (fun p => (sdf_tapered_segment p ⟨0, 0, 0⟩ ⟨0, 1, 0⟩ 1 11 modeLinear).getD 0)
      T := by
  rintro ⟨T, hT⟩
  have hd1 : distToSet ⟨20, 1/4, 0⟩ T = 33/2 := by
    have h := (hT ⟨20, 1/4, 0⟩).1
    simp only [sdf_eval_taper_quarter, Option.getD_some] at h
    exact h (by norm_num)
  have hd2 : distToSet ⟨20, 3/4, 0⟩ T = 23/2 := by
    have h := (hT ⟨20, 3/4, 0⟩).1
    simp only [sdf_eval_taper_threequarter, Option.getD_some] at h
    exact h (by norm_num)
  have hTne : T.Nonempty := by
    by_contra hne
    rw [Set.not_nonempty_iff_eq_empty] at hne
    rw [hne] at hd1
    unfold distToSet at hd1
    rw [Set.image_empty, Real.sInf_empty] at hd1
    norm_num at hd1
  have hd12 : dist3 ⟨20, 1/4, 0⟩ ⟨20, 3/4, 0⟩ = 1/2 := by
    show norm3 _ = 1/2
    apply norm3_eq_of_sq _ _ (by norm_num)
    unfold dot; simp; norm_num
  have hlip := distToSet_lipschitz ⟨20, 1/4, 0⟩ ⟨20, 3/4, 0⟩ hTne
  rw [hd1, hd2, hd12] at hlip
  norm_num at hlip

/-- C2 (amended): for equal radii `r0 = r1 = r > 0` and `a ≠ b`,
`sdf_tapered_segment(p, a, b, r, r)` returns the signed Euclidean
distance from `p` to the surface of the radius-`r` capsule around the
segment `[a, b]`: it returns `dist(p, segment) - r`, which is negative
exactly when `p` is strictly inside the capsule; a positive value is
the distance to the capsule surface, a negative value is minus that
distance, and a zero value puts `p` on the surface.  (For `r0 ≠ r1`
the returned value is not a Euclidean distance, see the
counterexample.) -/
theorem sdf_tapered_segment_signed_distance (p a b : Vec3) (r : ℝ)
    (hab : a ≠ b) (hr : 0 < r) :
    sdf_tapered_segment p a b r r modeLinear =
        some (distToSegment p a b - r) ∧
    (distToSegment p a b - r < 0 ↔ distToSegment p a b < r) ∧
    (0 < distToSegment p a b - r →
        distToSet p (capsuleSurface a b r) = distToSegment p a b - r) ∧
    (distToSegment p a b - r < 0 →
        distToSet p (capsuleSurface a b r) = -(distToSegment p a b - r)) ∧
    (distToSegment p a b - r = 0 → p ∈ capsuleSurface a b r) := by
  obtain ⟨h1, h2, h3⟩ := capsuleSurface_signedDist p a b r hab hr
  exact ⟨sdf_tapered_segment_equal_radii p a b r hab,
    ⟨fun h => by linarith, fun h => by linarith⟩, h1, h2, h3⟩

/-- C2 witness: the amended theorem instantiated at the unit capsule
around the segment from the origin to `(0, 1, 0)`. -/
theorem sdf_tapered_segment_signed_distance_witness :
    ((⟨0, 0, 0⟩ : Vec3) ≠ ⟨0, 1, 0⟩) ∧ ((0 : ℝ) < 1) ∧
    (sdf_tapered_segment ⟨2, 0, 0⟩ ⟨0, 0, 0⟩ ⟨0, 1, 0⟩ 1 1 modeLinear =
        some (distToSegment ⟨2, 0, 0⟩ ⟨0, 0, 0⟩ ⟨0, 1, 0⟩ - 1) ∧
      (distToSegment ⟨2, 0, 0⟩ ⟨0, 0, 0⟩ ⟨0, 1, 0⟩ - 1 < 0 ↔
        distToSegment ⟨2, 0, 0⟩ ⟨0, 0, 0⟩ ⟨0, 1, 0⟩ < 1) ∧
      (0 < distToSegment ⟨2, 0, 0⟩ ⟨0, 0, 0⟩ ⟨0, 1, 0⟩ - 1 →
        distToSet ⟨2, 0, 0⟩ (capsuleSurface ⟨0, 0, 0⟩ ⟨0, 1, 0⟩ 1) =
          distToSegment ⟨2, 0, 0⟩ ⟨0, 0, 0⟩ ⟨0, 1, 0⟩ - 1) ∧
      (distToSegment ⟨2, 0, 0⟩ ⟨0, 0, 0⟩ ⟨0, 1, 0⟩ - 1 < 0 →
        distToSet ⟨2, 0, 0⟩ (capsuleSurface ⟨0, 0, 0⟩ ⟨0, 1, 0⟩ 1) =
          -(distToSegment ⟨2, 0, 0⟩ ⟨0, 0, 0⟩ ⟨0, 1, 0⟩ - 1)) ∧
      (distToSegment ⟨2, 0, 0⟩ ⟨0, 0, 0⟩ ⟨0, 1, 0⟩ - 1 = 0 →
        ⟨2, 0, 0⟩ ∈ capsuleSurface ⟨0, 0, 0⟩ ⟨0, 1, 0⟩ 1)) := by
  have hab : (⟨0, 0, 0⟩ : Vec3) ≠ ⟨0, 1, 0⟩ := by
    intro h
    have := congrArg Vec3.y h
    norm_num at this
  exact ⟨hab, by norm_num,
    sdf_tapered_segment_signed_distance ⟨2, 0, 0⟩ ⟨0, 0, 0⟩ ⟨0, 1, 0⟩ 1 hab
      (by norm_num)⟩

/-! ## Voxel-grid plumbing -/

theorem mapMO_nil {α β : Type} (f : α → Option β) : mapMO f [] = some [] := rfl

theorem mapMO_cons {α β : Type} (f : α → Option β) (a : α) (l : List α) :
    mapMO f (a :: l) =
      (f a).bind fun b => (mapMO f l).bind fun r => some (b :: r) := rfl

theorem mapMO_length {α β : Type} (f : α → Option β) (l : List α) :
    ∀ r : List β, mapMO f l = some r → r.length = l.length := by
  induction l with
  | nil =>
    intro r h
    rw [mapMO_nil, Option.some.injEq] at h
    subst h
    rfl
  | cons a l ih =>
    intro r h
    rw [mapMO_cons] at h
    simp only [Option.bind_eq_some, Option.some.injEq] at h
    obtain ⟨b, _, r', hr', rfl⟩ := h
    simp [ih r' hr']

theorem mapMO_getElem? {α β : Type} (f : α → Option β) (l : List α) :
    ∀ r : List β, mapMO f l = some r → ∀ i : ℕ, r[i]? = (l[i]?).bind f := by
  induction l with
  | nil =>
    intro r h i
    rw [mapMO_nil, Option.some.injEq] at h
    subst h
    simp
  | cons a l ih =>
    intro r h i
    rw [mapMO_cons] at h
    simp only [Option.bind_eq_some, Option.some.injEq] at h
    obtain ⟨b, hb, r', hr', rfl⟩ := h
    cases i with
    | zero => simp [hb]
    | succ n => simpa using ih r' hr' n

theorem mapMO_mem {α β : Type} (f : α → Option β) (l : List α) :
    ∀ r : List β, mapMO f l = some r → ∀ b ∈ r, ∃ a ∈ l, f a = some b := by
  induction l with
  | nil =>
    intro r h b hb
    rw [mapMO_nil, Option.some.injEq] at h
    subst h
    simp at hb
  | cons a l ih =>
    intro r h b hb
    rw [mapMO_cons] at h
    simp only [Option.bind_eq_some, Option.some.injEq] at h
    obtain ⟨b', hb', r', hr', rfl⟩ := h
    rcases List.mem_cons.mp hb with rfl | hmem
    · exact ⟨a, List.mem_cons_self a l, hb'⟩
    · obtain ⟨a', ha', hfa⟩ := ih r' hr' b hmem
      exact ⟨a', List.mem_cons_of_mem a ha', hfa⟩

theorem mapMO_range_getD {β : Type} (f : ℕ → Option β) (n : ℕ) (r : List β)
    (h : mapMO f (List.range n) = some r) {i : ℕ} (hi : i < n) (d : β) :
    f i = some (r.getD i d) := by
  have hlen : r.length = n := by
    rw [mapMO_length _ _ _ h, List.length_range]
  have h1 := mapMO_getElem? _ _ _ h i
  rw [List.getElem?_range hi, Option.some_bind] at h1
  have hlt : i < r.length := by omega
  rw [List.getElem?_eq_getElem hlt] at h1
  have h2 : r.getD i d = r[i] := by
    rw [List.getD_eq_getElem?_getD, List.getElem?_eq_getElem hlt]
    rfl
  rw [h2]
  exact h1.symm

theorem mapMO_singleton {α β : Type} (f : α → Option β) (a : α) :
    mapMO f [a] = (f a).map (fun b => [b]) := by
  cases h : f a <;> simp [mapMO_cons, mapMO_nil, h]

/-- C1 (amended): for every in-range cell index `(i, j, k)` of the
chunk, the grid returned by `generate_trunk_voxels` holds `1` exactly
when the signed distance field evaluated at that cell's center point
(`chunk_origin + index + 0.5` in each axis) is nonpositive (`d ≤ 0`,
i.e. inside or exactly on the surface), and `0` when it is positive
(outside); occupancy is decided only by the SDF sample at the cell
center.  (The script sets `vox[d <= 0] = 1`, so a cell whose center
lies exactly on the surface, `d = 0`, is also occupied; see the
counterexample.) -/
theorem generate_trunk_voxels_cell (height r_bot r_tip : ℝ)
    (interp_mode : String) (split_count : ℕ)
    (split_frac split_separate split_bend split_angle : ℝ)
    (split_r_bot : Option ℝ) (nx ny nz : ℕ) (origin : ℝ × ℝ × ℝ)
    (g : List (List (List ℕ))) (i j k : ℕ)
    (hg : generate_trunk_voxels height r_bot r_tip interp_mode split_count
        split_frac split_separate split_bend split_angle split_r_bot
        (nx, ny, nz) origin = some g)
    (hi : i < nx) (hj : j < ny) (hk : k < nz) :
    ∃ d, trunkSDF height r_bot r_tip interp_mode split_count split_frac
        split_separate split_bend split_angle split_r_bot
        (cellCenter origin i j k) = some d ∧
      gridGet g i j k = (if d ≤ 0 then 1 else 0) ∧
      (gridGet g i j k = 1 ↔ d ≤ 0) ∧
      (0 < d → gridGet g i j k = 0) := by
  have h1 : mapMO (fun i => mapMO (fun j => mapMO (fun k =>
      (trunkSDF height r_bot r_tip interp_mode split_count split_frac
          split_separate split_bend split_angle split_r_bot
          (cellCenter origin i j k)).map
        (fun d => if d ≤ 0 then 1 else 0))
      (List.range nz)) (List.range ny)) (List.range nx) = some g := hg
  have hp := mapMO_range_getD _ _ _ h1 hi ([] : List (List ℕ))
  have hr := mapMO_range_getD _ _ _ hp hj ([] : List ℕ)
  have hc := mapMO_range_getD _ _ _ hr hk (0 : ℕ)
  rw [Option.map_eq_some'] at hc
  obtain ⟨d, hd, hval⟩ := hc
  have hvg : gridGet g i j k = if d ≤ 0 then 1 else 0 := hval.symm
  refine ⟨d, hd, hvg, ?_, ?_⟩
  · rw [hvg]
    split_ifs with h0
    · simp [h0]
    · simp [h0]
  · intro hpos
    rw [hvg, if_neg (not_le.mpr hpos)]

/-! ## Concrete evaluations of the voxelizer -/

theorem trunk_eval_boundary :
    trunkSDF 1 5 5 modeLinear 0 (8/10) 30 30 0 none
      (cellCenter (5/2, 0, 7/2) 0 0 0) = some 0 := by
  have hcc : cellCenter (5/2, 0, 7/2) 0 0 0 = ⟨3, 1/2, 4⟩ := by
    unfold cellCenter; ext <;> norm_num
  rw [hcc]
  show sdf_tapered_segment ⟨3, 1/2, 4⟩ ⟨0, 0, 0⟩ ⟨0, 1, 0⟩ 5 5 modeLinear =
    some 0
  rw [sdf_tapered_segment_def]
  have ht : tRaw ⟨3, 1/2, 4⟩ ⟨0, 0, 0⟩ ⟨0, 1, 0⟩ = 1/2 := by
    unfold tRaw dot; simp
  rw [ht]
  have hc : clamp01 (1/2 : ℝ) = 1/2 := clamp01_of_mem (by norm_num) (by norm_num)
  rw [hc, radiusInterp_linear, Option.map_some']
  rw [if_neg (by norm_num : ¬((1/2 : ℝ) ≤ 0)),
    if_neg (by norm_num : ¬((1 : ℝ) ≤ 1/2))]
  have hn : norm3 (⟨3, 1/2, 4⟩ - segPoint ⟨0, 0, 0⟩ ⟨0, 1, 0⟩ (1/2)) = 5 := by
    apply norm3_eq_of_sq _ _ (by norm_num)
    unfold segPoint dot; simp; norm_num
  rw [hn]
  norm_num

theorem generate_eval_boundary :
    generate_trunk_voxels 1 5 5 modeLinear 0 (8/10) 30 30 0 none (1, 1, 1)
      (5/2, 0, 7/2) = some [[[1]]] := by
  have h0 : generate_trunk_voxels 1 5 5 modeLinear 0 (8/10) 30 30 0 none
      (1, 1, 1) (5/2, 0, 7/2) =
      mapMO (fun i => mapMO (fun j => mapMO (fun k =>
        (trunkSDF 1 5 5 modeLinear 0 (8/10) 30 30 0 none
            (cellCenter (5/2, 0, 7/2) i j k)).map
          (fun d => if d ≤ 0 then 1 else 0)) [0]) [0]) [0] := rfl
  rw [h0]
  simp only [mapMO_singleton, trunk_eval_boundary, Option.map_some']
  norm_num

/-- C1 counterexample: with trunk height 1, radii 5, and the single-cell
chunk at origin `(5/2, 0, 7/2)`, the SDF at the (only) cell center is
exactly `0` — not negative — yet the returned grid stores `1` there, so
"1 exactly when the SDF is negative" fails on the surface. -/
theorem generate_trunk_voxels_boundary_counterexample :
    generate_trunk_voxels 1 5 5 modeLinear 0 (8/10) 30 30 0 none (1, 1, 1)
        (5/2, 0, 7/2) = some [[[1]]] ∧
      trunkSDF 1 5 5 modeLinear 0 (8/10) 30 30 0 none
        (cellCenter (5/2, 0, 7/2) 0 0 0) = some 0 ∧
      gridGet [[[1]]] 0 0 0 = 1 ∧ ¬((0 : ℝ) < 0) := by
  refine ⟨generate_eval_boundary, trunk_eval_boundary, rfl, by norm_num⟩

theorem trunk_eval_inside :
    trunkSDF 2 1 1 modeLinear 0 (8/10) 30 30 0 none
      (cellCenter (-(1/2), 0, -(1/2)) 0 0 0) = some (-1) := by
  have hcc : cellCenter (-(1/2), 0, -(1/2)) 0 0 0 = ⟨0, 1/2, 0⟩ := by
    unfold cellCenter; ext <;> norm_num
  rw [hcc]
  show sdf_tapered_segment ⟨0, 1/2, 0⟩ ⟨0, 0, 0⟩ ⟨0, 2, 0⟩ 1 1 modeLinear =
    some (-1)
  rw [sdf_tapered_segment_def]
  have ht : tRaw ⟨0, 1/2, 0⟩ ⟨0, 0, 0⟩ ⟨0, 2, 0⟩ = 1/4 := by
    unfold tRaw dot; simp; norm_num
  rw [ht]
  have hc : clamp01 (1/4 : ℝ) = 1/4 := clamp01_of_mem (by norm_num) (by norm_num)
  rw [hc, radiusInterp_linear, Option.map_some']
  rw [if_neg (by norm_num : ¬((1/4 : ℝ) ≤ 0)),
    if_neg (by norm_num : ¬((1 : ℝ) ≤ 1/4))]
  have hn : norm3 (⟨0, 1/2, 0⟩ - segPoint ⟨0, 0, 0⟩ ⟨0, 2, 0⟩ (1/4)) = 0 := by
    apply norm3_eq_of_sq _ _ (by norm_num)
    unfold segPoint dot; simp; norm_num
  rw [hn]
  norm_num

theorem generate_eval_inside :
    generate_trunk_voxels 2 1 1 modeLinear 0 (8/10) 30 30 0 none (1, 1, 1)
      (-(1/2), 0, -(1/2)) = some [[[1]]] := by
  have h0 : generate_trunk_voxels 2 1 1 modeLinear 0 (8/10) 30 30 0 none
      (1, 1, 1) (-(1/2), 0, -(1/2)) =
      mapMO (fun i => mapMO (fun j => mapMO (fun k =>
        (trunkSDF 2 1 1 modeLinear 0 (8/10) 30 30 0 none
            (cellCenter (-(1/2), 0, -(1/2)) i j k)).map
          (fun d => if d ≤ 0 then 1 else 0)) [0]) [0]) [0] := rfl
  rw [h0]
  simp only [mapMO_singleton, trunk_eval_inside, Option.map_some']
  norm_num

/-- C1 witness: the cell theorem instantiated on a 1×1×1 chunk whose
cell center lies on the trunk axis (SDF value `-1`, occupied cell). -/
theorem generate_trunk_voxels_cell_witness :
    (generate_trunk_voxels 2 1 1 modeLinear 0 (8/10) 30 30 0 none (1, 1, 1)
        (-(1/2), 0, -(1/2)) = some [[[1]]]) ∧
      0 < 1 ∧
      (∃ d, trunkSDF 2 1 1 modeLinear 0 (8/10) 30 30 0 none
          (cellCenter (-(1/2), 0, -(1/2)) 0 0 0) = some d ∧
        gridGet [[[1]]] 0 0 0 = (if d ≤ 0 then 1 else 0) ∧
        (gridGet [[[1]]] 0 0 0 = 1 ↔ d ≤ 0) ∧
        (0 < d → gridGet [[[1]]] 0 0 0 = 0)) := by
  refine ⟨generate_eval_inside, Nat.one_pos, ?_⟩
  exact generate_trunk_voxels_cell 2 1 1 modeLinear 0 (8/10) 30 30 0 none
    1 1 1 (-(1/2), 0, -(1/2)) [[[1]]] 0 0 0 generate_eval_inside
    Nat.one_pos Nat.one_pos Nat.one_pos

/-- C6: `generate_trunk_voxels` is a pure function of its arguments —
two calls with equal argument records (height, radii, mode, split
settings, chunk size and origin) return equal voxel grids; the
embedding has no other inputs, so the result depends on no external
state. -/
theorem generate_trunk_voxels_pure (A B : TrunkArgs) (h : A = B) :
    runTrunk A = runTrunk B := congrArg runTrunk h

/-- C6 witness: two syntactically equal argument records produce the
same grid. -/
theorem generate_trunk_voxels_pure_witness :
    (TrunkArgs.mk 2 1 1 modeLinear 0 (8/10) 30 30 0 none (1, 1, 1)
        (-(1/2), 0, -(1/2)) =
      TrunkArgs.mk 2 1 1 modeLinear 0 (8/10) 30 30 0 none (1, 1, 1)
        (-(1/2), 0, -(1/2))) ∧
    runTrunk (TrunkArgs.mk 2 1 1 modeLinear 0 (8/10) 30 30 0 none (1, 1, 1)
        (-(1/2), 0, -(1/2))) =
      runTrunk (TrunkArgs.mk 2 1 1 modeLinear 0 (8/10) 30 30 0 none (1, 1, 1)
        (-(1/2), 0, -(1/2))) :=
  ⟨rfl, generate_trunk_voxels_pure _ _ rfl⟩

/-- C7: for every chunk_size `(nx, ny, nz)` with positive entries, a
grid returned by `generate_trunk_voxels` has exactly shape
`(nx, ny, nz)` and every entry is `0` or `1`; the shape depends only
on the chunk_size argument, which the statement quantifies separately
from all tree parameters. -/
theorem generate_trunk_voxels_shape (height r_bot r_tip : ℝ)
    (interp_mode : String) (split_count : ℕ)
    (split_frac split_separate split_bend split_angle : ℝ)
    (split_r_bot : Option ℝ) (nx ny nz : ℕ) (origin : ℝ × ℝ × ℝ)
    (g : List (List (List ℕ)))
    (_hnx : 0 < nx) (_hny : 0 < ny) (_hnz : 0 < nz)
    (hg : generate_trunk_voxels height r_bot r_tip interp_mode split_count
        split_frac split_separate split_bend split_angle split_r_bot
        (nx, ny, nz) origin = some g) :
    g.length = nx ∧ ∀ plane ∈ g, plane.length = ny ∧
      ∀ row ∈ plane, row.length = nz ∧ ∀ v ∈ row, v = 0 ∨ v = 1 := by
  have h1 : mapMO (fun i => mapMO (fun j => mapMO (fun k =>
      (trunkSDF height r_bot r_tip interp_mode split_count split_frac
          split_separate split_bend split_angle split_r_bot
          (cellCenter origin i j k)).map
        (fun d => if d ≤ 0 then 1 else 0))
      (List.range nz)) (List.range ny)) (List.range nx) = some g := hg
  constructor
  · rw [mapMO_length _ _ _ h1, List.length_range]
  · intro plane hplane
    obtain ⟨i, _, hpi⟩ := mapMO_mem _ _ _ h1 plane hplane
    constructor
    · rw [mapMO_length _ _ _ hpi, List.length_range]
    · intro row hrow
      obtain ⟨j, _, hrj⟩ := mapMO_mem _ _ _ hpi row hrow
      constructor
      · rw [mapMO_length _ _ _ hrj, List.length_range]
      · intro v hv
        obtain ⟨k, _, hvk⟩ := mapMO_mem _ _ _ hrj v hv
        rw [Option.map_eq_some'] at hvk
        obtain ⟨d, _, hval⟩ := hvk
        split_ifs at hval
        · exact Or.inr hval.symm
        · exact Or.inl hval.symm

/-- C7 witness: the shape theorem instantiated on a concrete 1×1×1
chunk. -/
theorem generate_trunk_voxels_shape_witness :
    0 < 1 ∧
    (generate_trunk_voxels 1 5 5 modeLinear 0 (8/10) 30 30 0 none (1, 1, 1)
        (5/2, 0, 7/2) = some [[[1]]]) ∧
    (([[[1]]] : List (List (List ℕ))).length = 1 ∧
      ∀ plane ∈ ([[[1]]] : List (List (List ℕ))), plane.length = 1 ∧
        ∀ row ∈ plane, row.length = 1 ∧ ∀ v ∈ row, v = 0 ∨ v = 1) :=
  ⟨Nat.one_pos, generate_eval_boundary,
    generate_trunk_voxels_shape 1 5 5 modeLinear 0 (8/10) 30 30 0 none
      1 1 1 (5/2, 0, 7/2) [[[1]]] Nat.one_pos Nat.one_pos Nat.one_pos
      generate_eval_boundary⟩

/-- C9: for every geometric input, `sdf_tapered_segment` fails with the
`ValueError` (modelled as `none`) exactly when the mode string is
neither "linear" nor "quadratic"; for those two modes it never raises
this error. -/
theorem sdf_tapered_segment_mode_error (p a b : Vec3) (r0 r1 : ℝ)
    (mode : String) :
    sdf_tapered_segment p a b r0 r1 mode = none ↔
      mode ≠ "linear" ∧ mode ≠ "quadratic" := by
  rw [sdf_tapered_segment_def, Option.map_eq_none']
  unfold radiusInterp
  split_ifs with h1 h2
  · simp [h1]
  · simp [h2]
  · simp [h1, h2]

/-! ## Audio normalization -/

theorem maxAbsList_cons (a : ℝ) (t : List ℝ) :
    maxAbsList (a :: t) = max |a| (maxAbsList t) := rfl

theorem maxAbsList_nonneg (l : List ℝ) : 0 ≤ maxAbsList l := by
  induction l with
  | nil => exact le_refl 0
  | cons a t ih => exact le_trans ih (by rw [maxAbsList_cons]; exact le_max_right _ _)

theorem maxAbsList_map_mul (l : List ℝ) (g : ℝ) (hg : 0 ≤ g) :
    maxAbsList (l.map (fun v => v * g)) = maxAbsList l * g := by
  induction l with
  | nil => simp [maxAbsList]
  | cons a t ih =>
    rw [List.map_cons, maxAbsList_cons, maxAbsList_cons, ih,
      abs_mul, abs_of_nonneg hg, max_mul_of_nonneg _ _ hg]

theorem maxAbsList_eq_zero_of_all_zero (l : List ℝ) (h : ∀ x ∈ l, x = 0) :
    maxAbsList l = 0 := by
  induction l with
  | nil => rfl
  | cons a t ih =>
    rw [maxAbsList_cons, h a (List.mem_cons_self a t),
      ih fun x hx => h x (List.mem_cons_of_mem a hx)]
    simp

theorem normalize_audio_def (data : List ℝ) (target_db : ℝ) :
    normalize_audio data target_db =
      if maxAbsList (centeredData data) = 0 then centeredData data
      else (centeredData data).map
        (fun v => v * ((10 : ℝ) ^ (target_db / 20) /
          maxAbsList (centeredData data))) := rfl

/-- C3: when the DC-centered data `data - mean(data)` has a nonzero
peak, `normalize_audio` returns the centered data scaled by
`g = 10^(-1/20) / max|centered|`, so the output's peak absolute value
is exactly `10^(-1/20)` (-1 dBFS); when the centered data is
identically zero it returns the centered data unchanged. -/
theorem normalize_audio_spec (data : List ℝ) :
    (maxAbsList (centeredData data) ≠ 0 →
      normalize_audio data TARGET_DBFS =
        (centeredData data).map
          (fun v => v * ((10 : ℝ) ^ ((-1 : ℝ) / 20) /
            maxAbsList (centeredData data))) ∧
      maxAbsList (normalize_audio data TARGET_DBFS) =
        (10 : ℝ) ^ ((-1 : ℝ) / 20)) ∧
    ((∀ x ∈ centeredData data, x = 0) →
      normalize_audio data TARGET_DBFS = centeredData data) := by
  constructor
  · intro hne
    have hdb : (TARGET_DBFS : ℝ) / 20 = (-1 : ℝ) / 20 := rfl
    have h1 : normalize_audio data TARGET_DBFS =
        (centeredData data).map
          (fun v => v * ((10 : ℝ) ^ ((-1 : ℝ) / 20) /
            maxAbsList (centeredData data))) := by
      rw [normalize_audio_def, if_neg hne, hdb]
    refine ⟨h1, ?_⟩
    have hpos : (0 : ℝ) < (10 : ℝ) ^ ((-1 : ℝ) / 20) :=
      Real.rpow_pos_of_pos (by norm_num) _
    have hma : 0 < maxAbsList (centeredData data) :=
      lt_of_le_of_ne (maxAbsList_nonneg _) (Ne.symm hne)
    rw [h1, maxAbsList_map_mul _ _ (div_nonneg hpos.le hma.le)]
    field_simp
  · intro hz
    rw [normalize_audio_def, if_pos (maxAbsList_eq_zero_of_all_zero _ hz)]

/-- C3 witness: the normalization theorem instantiated on the two-sample
signal `[1, -1]` (already DC-free, peak 1). -/
theorem normalize_audio_spec_witness :
    maxAbsList (centeredData [(1 : ℝ), -1]) ≠ 0 ∧
    (normalize_audio [(1 : ℝ), -1] TARGET_DBFS =
        (centeredData [(1 : ℝ), -1]).map
          (fun v => v * ((10 : ℝ) ^ ((-1 : ℝ) / 20) /
            maxAbsList (centeredData [(1 : ℝ), -1]))) ∧
      maxAbsList (normalize_audio [(1 : ℝ), -1] TARGET_DBFS) =
        (10 : ℝ) ^ ((-1 : ℝ) / 20)) := by
  have hc : centeredData [(1 : ℝ), -1] = [1, -1] := by
    unfold centeredData npMean
    norm_num
  have hne : maxAbsList (centeredData [(1 : ℝ), -1]) ≠ 0 := by
    rw [hc, maxAbsList_cons, maxAbsList_cons]
    norm_num [maxAbsList, max_def]
  exact ⟨hne, (normalize_audio_spec [(1 : ℝ), -1]).1 hne⟩

/-! ## Batch loop and resampling -/

/-- C4: in the batch loop, an exception on any single file is caught
(recorded as a printed error) and processing continues with every
remaining file: every file contributes exactly one outcome (output or
error), every successfully processed file's output is written whatever
happens to the other files, and a failing file merely prepends its
error without changing what is produced for the rest of the batch. -/
theorem mainLoop_resilient {α ε β : Type} (process : α → Except ε β)
    (files : List α) :
    ((mainLoop process files).1.length + (mainLoop process files).2.length =
      files.length) ∧
    (∀ f ∈ files, ∀ b, process f = Except.ok b →
      b ∈ (mainLoop process files).1) ∧
    (∀ f e, process f = Except.error e →
      mainLoop process (f :: files) =
        ((mainLoop process files).1, e :: (mainLoop process files).2)) := by
  refine ⟨?_, ?_, ?_⟩
  · induction files with
    | nil => rfl
    | cons a l ih =>
      cases hpa : process a <;> simp [mainLoop, hpa] <;> omega
  · intro f hf b hb
    induction files with
    | nil => simp at hf
    | cons a l ih =>
      rcases List.mem_cons.mp hf with rfl | hmem
      · simp [mainLoop, hb]
      · cases hpa : process a <;> simp [mainLoop, hpa] <;>
          [exact ih hmem; exact Or.inr (ih hmem)]
  · intro f e he
    show mainLoop process (f :: files) = _
    simp [mainLoop, he]

/-- C4 witness: a concrete batch of three files where the middle file
fails: both other outputs are still produced, and the failure only
records an error. -/
theorem mainLoop_resilient_witness :
    ((1 : ℕ) ∈ [1, 2, 3] ∧
      (fun n : ℕ => if n = 2 then (Except.error 7 : Except ℕ ℕ)
        else Except.ok n) 1 = Except.ok 1 ∧
      1 ∈ (mainLoop (fun n : ℕ => if n = 2 then (Except.error 7 : Except ℕ ℕ)
        else Except.ok n) [1, 2, 3]).1) ∧
    ((fun n : ℕ => if n = 2 then (Except.error 7 : Except ℕ ℕ)
        else Except.ok n) 2 = Except.error 7 ∧
      mainLoop (fun n : ℕ => if n = 2 then (Except.error 7 : Except ℕ ℕ)
          else Except.ok n) (2 :: [1, 2, 3]) =
        ((mainLoop (fun n : ℕ => if n = 2 then (Except.error 7 : Except ℕ ℕ)
            else Except.ok n) [1, 2, 3]).1,
          7 :: (mainLoop (fun n : ℕ => if n = 2 then (Except.error 7 : Except ℕ ℕ)
            else Except.ok n) [1, 2, 3]).2)) := by
  refine ⟨⟨by decide, rfl, ?_⟩, rfl, ?_⟩
  · exact (mainLoop_resilient (fun n : ℕ => if n = 2 then Except.error 7
      else Except.ok n) [1, 2, 3]).2.1 1 (by decide) 1 rfl
  · exact (mainLoop_resilient (fun n : ℕ => if n = 2 then Except.error 7
      else Except.ok n) [1, 2, 3]).2.2 2 7 rfl

/-- C8: resampling to the same rate is the identity — the resampler
library call is never consulted — and resampling to a different rate
returns exactly the resampler's output. -/
theorem resample_audio_identity (r1 r2 : List ℝ → ℕ → ℕ → List ℝ)
    (data : List ℝ) (osr tsr : ℕ) :
    (resample_audio r1 data osr osr = data) ∧
    (osr = tsr →
      resample_audio r1 data osr tsr = resample_audio r2 data osr tsr) ∧
    (osr ≠ tsr → resample_audio r1 data osr tsr = r1 data osr tsr) := by
  refine ⟨by simp [resample_audio], ?_, ?_⟩
  · rintro rfl
    simp [resample_audio]
  · intro h
    simp [resample_audio, h]

/-- C8 witness: identity at 48 kHz for a concrete signal, and a
differing-rate call that hands over to the resampler. -/
theorem resample_audio_identity_witness :
    (resample_audio (fun _ _ _ => ([] : List ℝ)) [1, 2] 48000 48000 = [1, 2]) ∧
    (44100 ≠ 48000) ∧
    (resample_audio (fun _ _ _ => ([] : List ℝ)) [1, 2] 44100 48000 = []) :=
  ⟨(resample_audio_identity (fun _ _ _ => []) (fun _ _ _ => []) [1, 2]
      48000 48000).1,
    by norm_num,
    (resample_audio_identity (fun _ _ _ => []) (fun _ _ _ => []) [1, 2]
      44100 48000).2.2 (by norm_num)⟩

/-! ## Sphere culling -/

theorem latticeCoords_length (bound : ℕ) :
    (latticeCoords bound).length = 2 * bound + 1 := by
  rw [latticeCoords, List.length_map, List.length_range]

theorem mem_latticeCoords {bound : ℕ} {i : ℤ} :
    i ∈ latticeCoords bound ↔ -(bound : ℤ) ≤ i ∧ i ≤ bound := by
  rw [latticeCoords, List.mem_map]
  constructor
  · rintro ⟨n, hn, hni⟩
    rw [List.mem_range] at hn
    omega
  · rintro ⟨h1, h2⟩
    refine ⟨(i + bound).toNat, ?_, ?_⟩
    · rw [List.mem_range]; omega
    · omega

theorem mem_latticeCube {bound : ℕ} {v : ℤ × ℤ × ℤ} :
    v ∈ latticeCube bound ↔
      (-(bound : ℤ) ≤ v.1 ∧ v.1 ≤ bound) ∧
      (-(bound : ℤ) ≤ v.2.1 ∧ v.2.1 ≤ bound) ∧
      (-(bound : ℤ) ≤ v.2.2 ∧ v.2.2 ≤ bound) := by
  constructor
  · intro hv
    simp only [latticeCube, List.mem_flatMap, List.mem_map] at hv
    obtain ⟨i, hi, j, hj, k, hk, rfl⟩ := hv
    exact ⟨mem_latticeCoords.mp hi, mem_latticeCoords.mp hj,
      mem_latticeCoords.mp hk⟩
  · rintro ⟨h1, h2, h3⟩
    simp only [latticeCube, List.mem_flatMap, List.mem_map]
    refine ⟨v.1, mem_latticeCoords.mpr h1, v.2.1, mem_latticeCoords.mpr h2,
      v.2.2, mem_latticeCoords.mpr h3, ?_⟩
    rfl

theorem length_flatMap_const {α β : Type} (l : List α) (f : α → List β) (c : ℕ)
    (h : ∀ a ∈ l, (f a).length = c) : (l.flatMap f).length = l.length * c := by
  induction l with
  | nil => simp
  | cons a t ih =>
    rw [List.flatMap_cons, List.length_append, h a (List.mem_cons_self a t),
      ih fun x hx => h x (List.mem_cons_of_mem a hx), List.length_cons]
    ring

theorem latticeCube_length (bound : ℕ) :
    (latticeCube bound).length = (2 * bound + 1) ^ 3 := by
  have hinner : ∀ i : ℤ, i ∈ latticeCoords bound →
      ((latticeCoords bound).flatMap
        (fun j => (latticeCoords bound).map (fun k => (i, j, k)))).length =
      (2 * bound + 1) * (2 * bound + 1) := by
    intro i _
    rw [length_flatMap_const _ _ (2 * bound + 1)
      (fun j _ => by rw [List.length_map, latticeCoords_length]),
      latticeCoords_length]
  rw [latticeCube,
    length_flatMap_const _ _ ((2 * bound + 1) * (2 * bound + 1)) hinner,
    latticeCoords_length]
  ring

theorem length_filter_add_length_filter_not {α : Type} (l : List α)
    (p : α → Bool) :
    (l.filter p).length + (l.filter (fun a => ! p a)).length = l.length := by
  induction l with
  | nil => rfl
  | cons a t ih =>
    cases hpa : p a <;> simp [List.filter_cons, hpa] <;> omega

/-- C5: every lattice point of the cube `[-bound, bound]^3` is
classified into exactly one of `kept_voxels` (when
`i*i + j*j + k*k <= radius*radius`) and `culled_voxels` (otherwise);
the two lists are disjoint and their lengths sum to the
`(2*bound+1)^3` lattice points of the cube. -/
theorem visualize_sphere_culling_partition (bound : ℕ) (radius : ℝ)
    (v : ℤ × ℤ × ℤ) :
    (v ∈ (visualize_sphere_culling bound radius).1 ↔
      ((-(bound : ℤ) ≤ v.1 ∧ v.1 ≤ bound) ∧
       (-(bound : ℤ) ≤ v.2.1 ∧ v.2.1 ≤ bound) ∧
       (-(bound : ℤ) ≤ v.2.2 ∧ v.2.2 ≤ bound)) ∧ insideSphere v radius) ∧
    (v ∈ (visualize_sphere_culling bound radius).2 ↔
      ((-(bound : ℤ) ≤ v.1 ∧ v.1 ≤ bound) ∧
       (-(bound : ℤ) ≤ v.2.1 ∧ v.2.1 ≤ bound) ∧
       (-(bound : ℤ) ≤ v.2.2 ∧ v.2.2 ≤ bound)) ∧ ¬ insideSphere v radius) ∧
    ¬ (v ∈ (visualize_sphere_culling bound radius).1 ∧
       v ∈ (visualize_sphere_culling bound radius).2) ∧
    ((visualize_sphere_culling bound radius).1.length +
      (visualize_sphere_culling bound radius).2.length =
      (2 * bound + 1) ^ 3) := by
  have h1 : v ∈ (visualize_sphere_culling bound radius).1 ↔
      v ∈ latticeCube bound ∧ insideSphere v radius := by
    simp [visualize_sphere_culling, List.mem_filter]
  have h2 : v ∈ (visualize_sphere_culling bound radius).2 ↔
      v ∈ latticeCube bound ∧ ¬ insideSphere v radius := by
    simp [visualize_sphere_culling, List.mem_filter]
  refine ⟨?_, ?_, ?_, ?_⟩
  · rw [h1, mem_latticeCube]
  · rw [h2, mem_latticeCube]
  · rintro ⟨ha, hb⟩
    exact (h2.mp hb).2 (h1.mp ha).2
  · show ((latticeCube bound).filter _).length +
      ((latticeCube bound).filter _).length = _
    rw [length_filter_add_length_filter_not (latticeCube bound)
      (fun v => decide (insideSphere v radius)), latticeCube_length]

/-! ## HDR linear scaling -/

theorem linear_scale_to_u8_def (hdr : List ℝ) :
    linear_scale_to_u8 hdr =
      if npIsClose (maxList hdr) (minList hdr) then hdr.map (fun _ => 0)
      else hdr.map (fun v =>
        (max 0 (min 255 (roundHalfEven
          ((v - minList hdr) / (maxList hdr - minList hdr) * 255)))).toNat) := rfl

/-- C10: on an input image whose maximum and minimum pixel values are
approximately equal (`np.isclose`), `linear_scale_to_u8` returns an
all-zero array of the same shape without ever dividing by the zero
range; on every input the result has the input's shape, so the
function is total. -/
theorem linear_scale_to_u8_constant (hdr : List ℝ) :
    (npIsClose (maxList hdr) (minList hdr) →
      linear_scale_to_u8 hdr = hdr.map (fun _ => 0) ∧
      ∀ v ∈ linear_scale_to_u8 hdr, v = 0) ∧
    (linear_scale_to_u8 hdr).length = hdr.length := by
  constructor
  · intro h
    have heq : linear_scale_to_u8 hdr = hdr.map (fun _ => 0) := by
      rw [linear_scale_to_u8_def, if_pos h]
    refine ⟨heq, ?_⟩
    intro v hv
    rw [heq] at hv
    obtain ⟨_, _, rfl⟩ := List.mem_map.mp hv
    rfl
  · rw [linear_scale_to_u8_def]
    split_ifs <;> rw [List.length_map]

/-- C10 witness: the constant one-pixel image `[1]` maps to `[0]`. -/
theorem linear_scale_to_u8_constant_witness :
    npIsClose (maxList [(1 : ℝ)]) (minList [(1 : ℝ)]) ∧
    (linear_scale_to_u8 [(1 : ℝ)] = [(1 : ℝ)].map (fun _ => 0) ∧
      ∀ v ∈ linear_scale_to_u8 [(1 : ℝ)], v = 0) ∧
    (linear_scale_to_u8 [(1 : ℝ)]).length = 1 := by
  have h : npIsClose (maxList [(1 : ℝ)]) (minList [(1 : ℝ)]) := by
    unfold npIsClose maxList minList
    norm_num
  exact ⟨h, (linear_scale_to_u8_constant [(1 : ℝ)]).1 h,
    (linear_scale_to_u8_constant [(1 : ℝ)]).2⟩
